import Mathlib

/-!
# Verification of the pca9548a I2C multiplexer driver

Shallow embedding of `src/lib.rs` of the `pca9548a` crate. The crate wraps a
physical I2C bus in a mutex, stores the chip's 7-bit address, and exposes
channel-select operations (`select_mask`, `select_single`) plus per-channel
`SubBus` proxies whose `transaction` performs select-then-forward under the
held lock.

Modelling choices:
* Machine integers (`u8`) are `Nat` with hypotheses `< 256` where relevant.
* The physical bus (the external `embedded_hal::i2c::I2c` capability) is a
  state machine: a structure of two fallible operations `write` and
  `transaction` over an abstract state `σ`. A trace-recording instance
  (`traceBus`, state = list of emitted bus events) observes the I/O a call
  performs.
* The mutex wrapping the bus is a cell holding the bus state plus an
  acquisition outcome (`lockFailure`): `none` means `lock` yields the bus,
  `some e` means acquisition fails with `e` (e.g. a poisoned `std` mutex).
* Rust's `Result<T, E>` is `Except E T`; the returned `impl DerefMut` lock
  guard is embedded as the bus state accessible through the guard, so a
  function whose Rust signature returns the guard on success returns the
  (possibly updated) bus state in `Except.ok`; an `Except.error` result
  means the guard was dropped during error propagation and the caller holds
  no guard.
* `async fn`s are embedded by erasing `await`: the async variants have the
  same pure functional semantics, so they get their own definitions with
  bodies translated from the async source lines.
* A Rust `panic!`/`assert!` failure is `Option.none` in functions guarded by
  an assertion.
-/

/-- One I2C operation of a transaction, embedded from
`embedded_hal::i2c::Operation`: a read into a buffer of a given length, or a
write of the given bytes. -/
inductive I2cOp where
  | read (len : Nat)
  | write (data : List Nat)
deriving Repr, DecidableEq

/-- An observable event on the physical bus: a plain `write`, or a
`transaction` forwarded as a whole. -/
inductive BusEvent where
  | write (address : Nat) (data : List Nat)
  | transaction (address : Nat) (ops : List I2cOp)
deriving Repr, DecidableEq

/-- The external transactional-bus capability consumed by the crate
(`embedded_hal::i2c::I2c` resp. `embedded_hal_async::i2c::I2c`, await
erased): fallible `write` and `transaction` over a bus state `σ` with bus
error type `εB`. -/
structure I2cBus (σ εB : Type) where
  write : σ → Nat → List Nat → Except εB σ
  transaction : σ → Nat → List I2cOp → Except εB σ

/-- The bus observer: state is the list of emitted events in order, every
operation succeeds and appends its event. -/
def traceBus (εB : Type) : I2cBus (List BusEvent) εB where
  write s addr data := .ok (s ++ [.write addr data])
  transaction s addr ops := .ok (s ++ [.transaction addr ops])

/-- The mutex wrapping the bus (`SyncMutex` / `AsyncMutex` instance state):
the protected bus value plus the acquisition outcome of `lock`. -/
structure MutexCell (σ εM : Type) where
  value : σ
  lockFailure : Option εM

/-- `lock` on the mutex: either the acquisition failure, or the guard (the
protected bus state). -/
def MutexCell.lock (m : MutexCell σ εM) : Except εM σ :=
  match m.lockFailure with
  | some e => .error e
  | none => .ok m.value

/-- The composed error type (`enum Error<Mutex, Bus>` in `src/lib.rs`):
a mutex-failure payload or a bus-failure payload. -/
inductive Error (εM εB : Type) where
  | Mutex (e : εM)
  | Bus (e : εB)
deriving Repr, DecidableEq

/-- `embedded_hal::i2c::NoAcknowledgeSource`. -/
inductive NoAcknowledgeSource where
  | address | data | unknown
deriving Repr, DecidableEq

/-- `embedded_hal::i2c::ErrorKind` (the generic bus-error classification). -/
inductive ErrorKind where
  | bus
  | arbitrationLoss
  | noAcknowledge (source : NoAcknowledgeSource)
  | overrun
  | other
deriving Repr, DecidableEq

/-- `impl embedded_hal::i2c::Error for Error<Mutex, Bus>`: `kind` maps a
mutex failure to `Overrun` and passes a bus failure to the underlying bus
error's own classification `busKind` (the `Bus: embedded_hal::i2c::Error`
bound). Embedded from `src/lib.rs` lines 110–115. -/
def Error.kind (busKind : εB → ErrorKind) : Error εM εB → ErrorKind
  | .Mutex _ => .overrun
  | .Bus e => busKind e

/-- `std::sync::PoisonError`-like payload of the raw `std::sync::Mutex::lock`:
carries the guard it would have produced. -/
structure PoisonError (σ : Type) where
  guard : σ

/-- `impl SyncMutex for std::sync::Mutex`: `fn lock` is
`self.lock().or(Err(()))` — the raw lock outcome with any failure replaced by
the unit value (`type Error = ()` in the `MutexBase` impl). Embedded from
`src/lib.rs` lines 53–58. -/
def stdMutexLock (raw : Except (PoisonError σ) σ) : Except Unit σ :=
  match raw with
  | .ok g => .ok g
  | .error _ => .error ()

/-- `struct Pca9548a<Mutex>`: the bus wrapped in the mutex, and the chip
address. -/
structure Pca9548a (σ εM : Type) where
  bus : MutexCell σ εM
  address : Nat

/-- `Pca9548a::bus` (and `bus_async`, await erased): lock the mutex,
yielding the guard or the mutex error. -/
def Pca9548a.busLock (self : Pca9548a σ εM) : Except εM σ :=
  self.bus.lock

/-- `struct SubBus<'a, Mutex>`: a proxy holding a reference to the
controller and the channel mask. -/
structure SubBus (σ εM : Type) where
  pca : Pca9548a σ εM
  mask : Nat

/-- `Pca9548a::subbus(mask)`: pure constructor of the proxy. -/
def Pca9548a.subbus (self : Pca9548a σ εM) (mask : Nat) : SubBus σ εM :=
  ⟨self, mask⟩

/-- `Pca9548a::single_subbus(id)`: `assert!(id < 8)` then
`self.subbus(1 << id)`; `none` models the assertion panic. -/
def Pca9548a.single_subbus (self : Pca9548a σ εM) (id : Nat) :
    Option (SubBus σ εM) :=
  if id < 8 then some (self.subbus (1 <<< id)) else none

/-- `Pca9548a::select_mask` (`src/lib.rs` lines 226–236): lock the mutex
(mutex failure tagged `Error.Mutex`), write the single control byte `mask`
to `self.address` (bus failure tagged `Error.Bus`), and return the
still-held guard. -/
def Pca9548a.select_mask (B : I2cBus σ εB) (self : Pca9548a σ εM)
    (mask : Nat) : Except (Error εM εB) σ :=
  match self.busLock with
  | .error e => .error (.Mutex e)
  | .ok bus =>
    match B.write bus self.address [mask] with
    | .error e => .error (.Bus e)
    | .ok bus => .ok bus

/-- `Pca9548a::select_mask_async` (`src/lib.rs` lines 181–191, await
erased): same protocol over the async mutex and async bus. -/
def Pca9548a.select_mask_async (B : I2cBus σ εB) (self : Pca9548a σ εM)
    (mask : Nat) : Except (Error εM εB) σ :=
  match self.busLock with
  | .error e => .error (.Mutex e)
  | .ok bus =>
    match B.write bus self.address [mask] with
    | .error e => .error (.Bus e)
    | .ok bus => .ok bus

/-- `Pca9548a::select_single(id)`: `assert!(id < 8)` then
`self.select_mask(1 << id)`; `none` models the assertion panic. -/
def Pca9548a.select_single (B : I2cBus σ εB) (self : Pca9548a σ εM)
    (id : Nat) : Option (Except (Error εM εB) σ) :=
  if id < 8 then some (self.select_mask B (1 <<< id)) else none

/-- `Pca9548a::select_single_async(id)` (await erased). -/
def Pca9548a.select_single_async (B : I2cBus σ εB) (self : Pca9548a σ εM)
    (id : Nat) : Option (Except (Error εM εB) σ) :=
  if id < 8 then some (self.select_mask_async B (1 <<< id)) else none

/-- `SubBus::select`: `self.pca.select_mask(self.mask)`. -/
def SubBus.select (B : I2cBus σ εB) (self : SubBus σ εM) :
    Except (Error εM εB) σ :=
  self.pca.select_mask B self.mask

/-- `SubBus::select_async` (await erased). -/
def SubBus.select_async (B : I2cBus σ εB) (self : SubBus σ εM) :
    Except (Error εM εB) σ :=
  self.pca.select_mask_async B self.mask

/-- `impl embedded_hal::i2c::I2c for SubBus`: `transaction` is
`self.select()?.transaction(address, operations).map_err(Error::Bus)`
(`src/lib.rs` lines 353–361). On success the final bus state (the mutation
performed through the guard) is returned; the guard is dropped when the call
ends. -/
def SubBus.transaction (B : I2cBus σ εB) (self : SubBus σ εM)
    (address : Nat) (operations : List I2cOp) : Except (Error εM εB) σ :=
  match self.select B with
  | .error e => .error e
  | .ok bus =>
    match B.transaction bus address operations with
    | .error e => .error (.Bus e)
    | .ok bus => .ok bus

/-- `impl embedded_hal_async::i2c::I2c for SubBus`: `transaction`
(`src/lib.rs` lines 312–322, await erased). -/
def SubBus.transaction_async (B : I2cBus σ εB) (self : SubBus σ εM)
    (address : Nat) (operations : List I2cOp) : Except (Error εM εB) σ :=
  match self.select_async B with
  | .error e => .error e
  | .ok bus =>
    match B.transaction bus address operations with
    | .error e => .error (.Bus e)
    | .ok bus => .ok bus

/-- The `embedded_hal::i2c::I2c::write` provided method used by the test
suite: a transaction consisting of a single write operation. -/
def SubBus.busWrite (B : I2cBus σ εB) (self : SubBus σ εM)
    (address : Nat) (data : List Nat) : Except (Error εM εB) σ :=
  self.transaction B address [.write data]

/-- `BASE_ADDRESS` of the chip. -/
def BASE_ADDRESS : Nat := 0x70

/-- A bus whose every operation fails with the fixed error `e`. -/
def failBus (εB : Type) (e : εB) : I2cBus Unit εB where
  write _ _ _ := .error e
  transaction _ _ _ := .error e

/-- A bus on which plain writes succeed but forwarded transactions fail
with the fixed error `e`. -/
def transFailBus (εB : Type) (e : εB) : I2cBus Unit εB where
  write _ _ _ := .ok ()
  transaction _ _ _ := .error e

/-- C1: for every 8-bit `mask`, a successful `select_mask mask` (and
`select_mask_async mask`) acquires the lock and then writes exactly one
byte equal to `mask` to the controller's stored address before any other
I/O — observed on the trace bus, the events emitted during the call are
exactly one `write address [mask]` appended to the prior trace — and the
still-held guard (the bus behind the lock) is returned in `ok`. -/
theorem select_mask_writes_one_control_byte (εM εB : Type) (mask : Nat)
    (hm : mask < 256) (addr : Nat) (t : List BusEvent) :
    (Pca9548a.select_mask (traceBus εB) (⟨⟨t, none⟩, addr⟩ : Pca9548a (List BusEvent) εM) mask
      = .ok (t ++ [.write addr [mask]])) ∧
    (Pca9548a.select_mask_async (traceBus εB) (⟨⟨t, none⟩, addr⟩ : Pca9548a (List BusEvent) εM) mask
      = .ok (t ++ [.write addr [mask]])) := by
  exact ⟨rfl, rfl⟩

/-- Witness for C1 at `mask = 1`, `addr = 0x70`, empty prior trace. -/
theorem select_mask_writes_one_control_byte_w :
    1 < 256 ∧
    ((Pca9548a.select_mask (traceBus Unit) (⟨⟨[], none⟩, 0x70⟩ : Pca9548a (List BusEvent) Unit) 1
       = .ok [.write 0x70 [1]]) ∧
     (Pca9548a.select_mask_async (traceBus Unit) (⟨⟨[], none⟩, 0x70⟩ : Pca9548a (List BusEvent) Unit) 1
       = .ok [.write 0x70 [1]])) :=
  ⟨by decide, select_mask_writes_one_control_byte Unit Unit 1 (by decide) 0x70 []⟩

/-- C3: `SubBus.transaction` (sync and async) performs select-then-forward:
on the trace bus the emitted events are exactly the control-byte write to
the controller's address followed by the forwarded transaction at the
caller-supplied target; and whenever the forwarded transaction fails at the
bus level (hypotheses `hsel`, `htr`), the failure is mapped into the `Bus`
error variant and no guard is returned. -/
theorem subbus_transaction_select_then_forward (εM εB σ : Type)
    (B : I2cBus σ εB) (sb : SubBus σ εM) (bus : σ) (e : εB)
    (addr mask target : Nat) (ops : List I2cOp) (t : List BusEvent)
    (hsel : sb.select B = .ok bus)
    (hsel' : sb.select_async B = .ok bus)
    (htr : B.transaction bus target ops = .error e) :
    (SubBus.transaction (traceBus εB) (⟨⟨⟨t, none⟩, addr⟩, mask⟩ : SubBus (List BusEvent) εM) target ops
       = .ok (t ++ [.write addr [mask], .transaction target ops])) ∧
    (SubBus.transaction_async (traceBus εB) (⟨⟨⟨t, none⟩, addr⟩, mask⟩ : SubBus (List BusEvent) εM) target ops
       = .ok (t ++ [.write addr [mask], .transaction target ops])) ∧
    (sb.transaction B target ops = .error (.Bus e)) ∧
    (sb.transaction_async B target ops = .error (.Bus e)) := by
  refine ⟨?_, ?_, ?_, ?_⟩
  · simp [SubBus.transaction, SubBus.select, Pca9548a.select_mask,
      Pca9548a.busLock, MutexCell.lock, traceBus]
  · simp [SubBus.transaction_async, SubBus.select_async,
      Pca9548a.select_mask_async, Pca9548a.busLock, MutexCell.lock, traceBus]
  · simp [SubBus.transaction, hsel, htr]
  · simp [SubBus.transaction_async, hsel', htr]

/-- Witness for C3: the end-to-end example — a channel-0 proxy
(mask `1`) on a controller at `0x70` writing `[1,2,3]` to `0x42` produces
exactly `write 0x70 [0x01]` then `transaction 0x42 (write [1,2,3])`; the
error-mapping hypotheses are discharged on `transFailBus`. -/
theorem subbus_transaction_select_then_forward_w :
    (SubBus.transaction (traceBus Unit) (⟨⟨⟨[], none⟩, 0x70⟩, 1⟩ : SubBus (List BusEvent) Unit)
        0x42 [.write [1, 2, 3]]
      = .ok [.write 0x70 [1], .transaction 0x42 [.write [1, 2, 3]]]) ∧
    (SubBus.transaction_async (traceBus Unit) (⟨⟨⟨[], none⟩, 0x70⟩, 1⟩ : SubBus (List BusEvent) Unit)
        0x42 [.write [1, 2, 3]]
      = .ok [.write 0x70 [1], .transaction 0x42 [.write [1, 2, 3]]]) ∧
    (SubBus.transaction (transFailBus Unit ()) (⟨⟨⟨(), none⟩, 0x70⟩, 1⟩ : SubBus Unit Unit)
        0x42 [.write [1, 2, 3]] = .error (.Bus ())) ∧
    (SubBus.transaction_async (transFailBus Unit ()) (⟨⟨⟨(), none⟩, 0x70⟩, 1⟩ : SubBus Unit Unit)
        0x42 [.write [1, 2, 3]] = .error (.Bus ())) :=
  subbus_transaction_select_then_forward Unit Unit Unit (transFailBus Unit ())
    ⟨⟨⟨(), none⟩, 0x70⟩, 1⟩ () () 0x70 1 0x42 [.write [1, 2, 3]] []
    rfl rfl rfl

/-- C4: when lock acquisition fails with `e`, `select_mask` and
`select_mask_async` return `Error.Mutex e` immediately, uniformly in the
bus implementation `B` — the bus operations are never invoked, so no bus
I/O of any kind occurs. -/
theorem select_lock_failure_no_io (σ εM εB : Type) (B : I2cBus σ εB)
    (busv : σ) (e : εM) (addr mask : Nat) :
    (Pca9548a.select_mask B ⟨⟨busv, some e⟩, addr⟩ mask = .error (.Mutex e)) ∧
    (Pca9548a.select_mask_async B ⟨⟨busv, some e⟩, addr⟩ mask = .error (.Mutex e)) :=
  ⟨rfl, rfl⟩

/-- C5: when the control-byte write fails with bus error `e` (hypotheses
`hw`, `hw'`), `select_mask` and `select_mask_async` return
`Error.Bus e` — tagged as a bus failure, never reclassified as a lock
failure — and the caller receives only the error, no guard (the guard is
dropped during error propagation, releasing the lock). -/
theorem select_write_failure_bus_tagged (σ εM εB : Type) (B : I2cBus σ εB)
    (busv : σ) (addr mask : Nat) (e : εB)
    (hw : B.write busv addr [mask] = .error e) :
    (Pca9548a.select_mask B (⟨⟨busv, none⟩, addr⟩ : Pca9548a σ εM) mask = .error (.Bus e)) ∧
    (Pca9548a.select_mask_async B (⟨⟨busv, none⟩, addr⟩ : Pca9548a σ εM) mask = .error (.Bus e)) := by
  constructor
  · simp [Pca9548a.select_mask, Pca9548a.busLock, MutexCell.lock, hw]
  · simp [Pca9548a.select_mask_async, Pca9548a.busLock, MutexCell.lock, hw]

/-- Witness for C5 on the always-failing bus. -/
theorem select_write_failure_bus_tagged_w :
    (Pca9548a.select_mask (failBus Unit ()) (⟨⟨(), none⟩, 0x70⟩ : Pca9548a Unit Unit) 3
       = .error (.Bus ())) ∧
    (Pca9548a.select_mask_async (failBus Unit ()) (⟨⟨(), none⟩, 0x70⟩ : Pca9548a Unit Unit) 3
       = .error (.Bus ())) :=
  select_write_failure_bus_tagged Unit Unit Unit (failBus Unit ()) () 0x70 3 () rfl

/-- C6: `single_subbus id` returns a proxy bound to mask `2 ^ id`
(= `1 <<< id`) when `id < 8`, and faults (modelled `none`) when `8 ≤ id`. -/
theorem single_subbus_mask (σ εM : Type) (pca : Pca9548a σ εM) (id : Nat) :
    pca.single_subbus id = if id < 8 then some ⟨pca, 2 ^ id⟩ else none := by
  simp [Pca9548a.single_subbus, Pca9548a.subbus, Nat.shiftLeft_eq]

/-- C7: `select_single id` equals `select_mask (2 ^ id)` (= `1 << id`) when
`id < 8` and faults (modelled `none`) when `8 ≤ id`; likewise for the async
pair. -/
theorem select_single_eq_select_mask (σ εM εB : Type) (B : I2cBus σ εB)
    (pca : Pca9548a σ εM) (id : Nat) :
    (pca.select_single B id
       = if id < 8 then some (pca.select_mask B (2 ^ id)) else none) ∧
    (pca.select_single_async B id
       = if id < 8 then some (pca.select_mask_async B (2 ^ id)) else none) := by
  constructor
  · simp [Pca9548a.select_single, Nat.shiftLeft_eq]
  · simp [Pca9548a.select_single_async, Nat.shiftLeft_eq]

/-- C8: every lock-failure payload is classified by `Error.kind` as the
bus-overrun kind, for every underlying bus-error classification. -/
theorem mutex_error_kind_overrun (εM εB : Type) (busKind : εB → ErrorKind)
    (e : εM) : (Error.Mutex e : Error εM εB).kind busKind = .overrun :=
  rfl

/-- C9: every bus-failure payload is classified by `Error.kind` as the
underlying bus error's own classification, unchanged. -/
theorem bus_error_kind_passthrough (εM εB : Type) (busKind : εB → ErrorKind)
    (e : εB) : (Error.Bus e : Error εM εB).kind busKind = busKind e :=
  rfl

/-- C10: the `std::sync::Mutex` instantiation reports every
lock-acquisition failure as the unit value, discarding the poison payload
(the result is the same for every payload `e`), and passes the guard
through on success; the error type is `Unit`. -/
theorem std_mutex_lock_discards_poison (σ : Type) (g : σ) (e : PoisonError σ) :
    stdMutexLock (Except.error e : Except (PoisonError σ) σ) = .error () ∧
    stdMutexLock (Except.ok g : Except (PoisonError σ) σ) = .ok g :=
  ⟨rfl, rfl⟩

/-!
## Concurrency model for the select+transaction protocol

`SubBus::transaction` performs, per caller: acquire the mutex, write the
control byte through the guard, forward the transaction through the same
guard, and drop the guard. The interleaving of any number of callers
against one controller is modelled as a labelled transition system: each
caller is a task identified by a `Nat`, at each moment at most one task
owns the mutex (`owner`), and the physical bus records the events the
owner emits. A task may take the three protocol steps only in order and
only while owning the mutex, which is the mutual-exclusion semantics of
the `SyncMutex`/`AsyncMutex` bound (`std::sync::Mutex`,
`embassy_sync::mutex::Mutex`). -/

/-- Where one caller stands in `SubBus::transaction`: not inside a call,
holding the freshly acquired lock, or having written its control byte. -/
inductive Phase where
  | idle | locked | selected
deriving DecidableEq, Repr

/-- A physical-bus event of the concurrent model, labelled by the caller:
the control-byte write of `SubBus::select`, or the forwarded transaction. -/
inductive TEvent where
  | ctrl (who : Nat) (mask : Nat)
  | trans (who : Nat) (address : Nat)
deriving DecidableEq, Repr

/-- Global state: each caller's phase, the current mutex owner, and the
event history of the physical bus. -/
structure Sys where
  phase : Nat → Phase
  owner : Option Nat
  trace : List TEvent

/-- Caller `t` has a select+transaction sequence in flight: it holds the
lock, between acquisition and the end of its transaction. -/
def Sys.inFlight (s : Sys) (t : Nat) : Prop :=
  s.phase t = .locked ∨ s.phase t = .selected

/-- Initial state: nobody inside a call, mutex free, empty bus history. -/
def initSys : Sys := ⟨fun _ => .idle, none, []⟩

/-- One interleaving step of `SubBus::transaction` executed by caller `t`
with channel mask `maskOf t` and target address `addrOf t`:
`acquire` takes the free mutex, `writeCtrl` writes the control byte
through the held guard, `doTrans` forwards the transaction through the
held guard and then drops the guard. -/
inductive Step (maskOf addrOf : Nat → Nat) : Sys → Sys → Prop where
  | acquire (t : Nat) (h1 : s.phase t = .idle) (h2 : s.owner = none) :
      Step maskOf addrOf s
        ⟨fun u => if u = t then .locked else s.phase u, some t, s.trace⟩
  | writeCtrl (t : Nat) (h1 : s.phase t = .locked) (h2 : s.owner = some t) :
      Step maskOf addrOf s
        ⟨fun u => if u = t then .selected else s.phase u, some t,
         s.trace ++ [.ctrl t (maskOf t)]⟩
  | doTrans (t : Nat) (h1 : s.phase t = .selected) (h2 : s.owner = some t) :
      Step maskOf addrOf s
        ⟨fun u => if u = t then .idle else s.phase u, none,
         s.trace ++ [.trans t (addrOf t)]⟩

/-- States reachable from the initial state by interleaved callers. -/
inductive Reachable (maskOf addrOf : Nat → Nat) : Sys → Prop where
  | init : Reachable maskOf addrOf initSys
  | step {s s' : Sys} : Reachable maskOf addrOf s → Step maskOf addrOf s s' →
      Reachable maskOf addrOf s'

/-- A bus history is serialized: every forwarded transaction is immediately
preceded by its own caller's control-byte write — in particular no other
caller's control byte lands between a caller's select and the completion
of its transaction. -/
def serialized (tr : List TEvent) : Prop :=
  ∀ k t a, tr[k]? = some (.trans t a) →
    1 ≤ k ∧ ∃ m, tr[k - 1]? = some (.ctrl t m)

/-- Inductive invariant of the protocol: every in-flight caller is the
mutex owner, a caller that has written its control byte wrote the last bus
event, and the history so far is serialized. -/
def SysInv (maskOf : Nat → Nat) (s : Sys) : Prop :=
  (∀ t, s.inFlight t → s.owner = some t) ∧
  (∀ t, s.phase t = .selected → s.trace.getLast? = some (.ctrl t (maskOf t))) ∧
  serialized s.trace

/-- The invariant holds initially. -/
theorem sysInv_init (maskOf : Nat → Nat) : SysInv maskOf initSys := by
  refine ⟨?_, ?_, ?_⟩
  · intro t ht
    rcases ht with h | h <;> simp [initSys] at h
  · intro t ht
    simp [initSys] at ht
  · intro k t a hk
    simp [initSys] at hk

/-- Appending a control write keeps a history serialized. -/
theorem serialized_concat_ctrl (tr : List TEvent) (t m : Nat)
    (h : serialized tr) : serialized (tr ++ [.ctrl t m]) := by
  intro k t' a hk
  rcases Nat.lt_trichotomy k tr.length with hlt | heq | hgt
  · rw [List.getElem?_append_left hlt] at hk
    obtain ⟨h1, m', hm⟩ := h k t' a hk
    refine ⟨h1, m', ?_⟩
    rw [List.getElem?_append_left (show k - 1 < tr.length by omega)]
    exact hm
  · subst heq
    rw [List.getElem?_concat_length] at hk
    exact absurd hk (by simp)
  · rw [List.getElem?_eq_none (by simpa using hgt)] at hk
    exact Option.noConfusion hk

/-- Appending caller `t`'s transaction keeps a history serialized, given
that `t`'s control write is the last event so far. -/
theorem serialized_concat_trans (tr : List TEvent) (t a0 m : Nat)
    (h : serialized tr) (hlast : tr.getLast? = some (.ctrl t m)) :
    serialized (tr ++ [.trans t a0]) := by
  have hne : tr ≠ [] := by intro he; subst he; simp at hlast
  have hlen : 1 ≤ tr.length := List.length_pos.mpr hne
  intro k t' a hk
  rcases Nat.lt_trichotomy k tr.length with hlt | heq | hgt
  · rw [List.getElem?_append_left hlt] at hk
    obtain ⟨h1, m', hm⟩ := h k t' a hk
    refine ⟨h1, m', ?_⟩
    rw [List.getElem?_append_left (show k - 1 < tr.length by omega)]
    exact hm
  · subst heq
    rw [List.getElem?_concat_length] at hk
    obtain ⟨ht', ha⟩ : t' = t ∧ a = a0 := by
      cases hk; exact ⟨rfl, rfl⟩
    subst ht'
    refine ⟨hlen, m, ?_⟩
    rw [List.getElem?_append_left (show tr.length - 1 < tr.length by omega)]
    rw [List.getLast?_eq_getElem?] at hlast
    exact hlast
  · rw [List.getElem?_eq_none (by simpa using hgt)] at hk
    exact Option.noConfusion hk

/-- Every protocol step preserves the invariant. -/
theorem sysInv_step (maskOf addrOf : Nat → Nat) (s s' : Sys)
    (hstep : Step maskOf addrOf s s') (hinv : SysInv maskOf s) :
    SysInv maskOf s' := by
  obtain ⟨hown, hsel, hser⟩ := hinv
  cases hstep with
  | acquire t h1 h2 =>
    refine ⟨?_, ?_, hser⟩
    · intro u hu
      by_cases hut : u = t
      · subst hut; rfl
      · exfalso
        have hu' : s.inFlight u := by
          simpa [Sys.inFlight, hut] using hu
        have := hown u hu'
        rw [h2] at this
        exact Option.noConfusion this
    · intro u hu
      by_cases hut : u = t
      · subst hut; simp [Sys.inFlight] at hu
      · have hu' : s.phase u = .selected := by simpa [hut] using hu
        exfalso
        have := hown u (Or.inr hu')
        rw [h2] at this
        exact Option.noConfusion this
  | writeCtrl t h1 h2 =>
    refine ⟨?_, ?_, serialized_concat_ctrl s.trace t (maskOf t) hser⟩
    · intro u hu
      by_cases hut : u = t
      · subst hut; rfl
      · have hu' : s.inFlight u := by simpa [Sys.inFlight, hut] using hu
        have := hown u hu'
        rw [h2] at this
        exact absurd (Option.some.inj this).symm hut
    · intro u hu
      by_cases hut : u = t
      · subst hut
        simp only
        rw [List.getLast?_eq_getElem?]
        simp [List.getElem?_concat_length]
      · have hu' : s.phase u = .selected := by simpa [hut] using hu
        have := hown u (Or.inr hu')
        rw [h2] at this
        exact absurd (Option.some.inj this).symm hut
  | doTrans t h1 h2 =>
    refine ⟨?_, ?_,
      serialized_concat_trans s.trace t (addrOf t) (maskOf t) hser (hsel t h1)⟩
    · intro u hu
      exfalso
      by_cases hut : u = t
      · subst hut; simp [Sys.inFlight] at hu
      · have hu' : s.inFlight u := by simpa [Sys.inFlight, hut] using hu
        have := hown u hu'
        rw [h2] at this
        exact absurd (Option.some.inj this).symm hut
    · intro u hu
      exfalso
      by_cases hut : u = t
      · subst hut; simp at hu
      · have hu' : s.phase u = .selected := by simpa [hut] using hu
        have := hown u (Or.inr hu')
        rw [h2] at this
        exact absurd (Option.some.inj this).symm hut

/-- The invariant holds in every reachable state. -/
theorem sysInv_reachable (maskOf addrOf : Nat → Nat) (s : Sys)
    (h : Reachable maskOf addrOf s) : SysInv maskOf s := by
  induction h with
  | init => exact sysInv_init maskOf
  | step hr hs ih => exact sysInv_step maskOf addrOf _ _ hs ih

/-- C2: for any number of concurrent callers interleaving
select+transaction sequences through one controller, in every reachable
state at most one caller has a sequence in flight on the physical bus,
and the bus history is serialized: each completed transaction is
immediately preceded by its own caller's control-byte write, so no
interleaving is observable in which one caller's control byte is
overwritten by another's before the first caller's transaction
completes. -/
theorem mux_serializes (maskOf addrOf : Nat → Nat) (s : Sys)
    (h : Reachable maskOf addrOf s) :
    (∀ t u, s.inFlight t → s.inFlight u → t = u) ∧ serialized s.trace := by
  obtain ⟨hown, _, hser⟩ := sysInv_reachable maskOf addrOf s h
  refine ⟨?_, hser⟩
  intro t u ht hu
  have h1 := hown t ht
  have h2 := hown u hu
  rw [h1] at h2
  exact Option.some.inj h2

/-- State after caller `0` acquires the free mutex in the initial state. -/
def sysAfterAcquire : Sys :=
  ⟨fun u => if u = 0 then Phase.locked else Phase.idle, some 0, []⟩

/-- Witness for C2 on a concrete reachable state: one acquire step by
caller `0` from the initial state. -/
theorem mux_serializes_w :
    (∀ t u, sysAfterAcquire.inFlight t → sysAfterAcquire.inFlight u → t = u) ∧
    serialized sysAfterAcquire.trace :=
  mux_serializes (fun _ => 1) (fun _ => 0x42) sysAfterAcquire
    (Reachable.step Reachable.init (Step.acquire 0 rfl rfl))
